import Mathlib

/-
Verification development for the byte-accumulation and adaptive-decompression
core of the Krowno C bindings (src/c_bindings.c).

Bytes are modelled as natural numbers; byte buffers as lists.  The zlib
library is an external collaborator: its two entry points used by the code,
uncompress and compress2, are modelled through parameters ("decode" for the
abstract stream semantics of uncompress, "comp" for compress2), constrained
only where a theorem needs zlib's documented contract.  Allocation success is
a parameter as well, so that the out-of-memory paths of the C code are part
of the model.  Machine-integer overflow of size_t is not modelled: all the
capacity arithmetic of the source stays far below 2^64 for any input that
can exist in memory.
-/

/-- Outcome of one call to zlib's uncompress: success with the decompressed
bytes, Z_BUF_ERROR (destination too small) or a hard error such as
Z_DATA_ERROR (malformed stream). -/
inductive ZRes where
  | ok (out : List Nat)
  | bufError
  | dataError
deriving DecidableEq

/-- Model of zlib's uncompress, parametrized by the abstract decoding
function of the compressed format: decode gives the full decompressed
content of a stream, or none if the stream is malformed.  uncompress
succeeds exactly when the stream is well formed and its content fits the
destination capacity, fails with Z_BUF_ERROR when the content is larger
than the capacity, and with a data error when the stream is malformed.
This is zlib's documented single-shot contract. -/
def uncomp (decode : List Nat → Option (List Nat)) (input : List Nat) (cap : Nat) : ZRes :=
  match decode input with
  | none => ZRes.dataError
  | some out => if out.length ≤ cap then ZRes.ok out else ZRes.bufError

/-- Observable outcome of a call to krowno_inflate: the C return value,
the values stored through the caller's output/output_len pointers (none when
the function returned without writing them), and the list of candidate
capacities passed to malloc, one per attempt, in order. -/
structure InflateResult where
  ret : Int
  writes : Option (List Nat × Nat)
  caps : List Nat
deriving DecidableEq

/-- Loop body of krowno_inflate (src/c_bindings.c lines 387-400): up to
fuel further iterations; each iteration mallocs cap bytes (success given by
mallocOk at the attempt index), runs uncompress against the full capacity,
returns on Z_OK, and otherwise doubles cap and continues.  When the fuel is
exhausted the C code falls out of the loop and returns -1. -/
def inflateGo (decode : List Nat → Option (List Nat)) (mallocOk : Nat → Bool)
    (input : List Nat) : Nat → Nat → Nat → InflateResult
  | _, 0, _ => ⟨-1, none, []⟩
  | i, fuel + 1, cap =>
    if mallocOk i then
      match uncomp decode input cap with
      | ZRes.ok out => ⟨0, some (out, out.length), [cap]⟩
      | _ =>
        let r := inflateGo decode mallocOk input (i + 1) fuel (cap * 2)
        ⟨r.ret, r.writes, cap :: r.caps⟩
    else ⟨-1, none, [cap]⟩

/-- Model of krowno_inflate (src/c_bindings.c lines 378-404): empty input is
rejected with -1 before any allocation; otherwise the retry loop starts from
capacity input_len * 4, raised to 1024 if smaller, and runs at most 6
attempts. -/
def krowno_inflate (decode : List Nat → Option (List Nat)) (mallocOk : Nat → Bool)
    (input : List Nat) : InflateResult :=
  if input.length = 0 then ⟨-1, none, []⟩
  else inflateGo decode mallocOk input 0 6 (max (input.length * 4) 1024)

/-- Observable outcome of a call to krowno_deflate: the C return value, the
values stored through the caller's output/output_len pointers (none when the
function returned without writing them), and the sizes passed to malloc, in
order. -/
structure DeflateResult where
  ret : Int
  writes : Option (List Nat × Nat)
  allocs : List Nat
deriving DecidableEq

/-- Model of krowno_deflate (src/c_bindings.c lines 359-376): empty input is
rejected with -1 before any allocation; otherwise a buffer of compressBound
bytes is allocated (bound models compressBound, mallocOk its success) and
compress2 is run once (comp models compress2 at the given level; none models
any non-Z_OK result, e.g. an invalid level).  On success the output pointer
and length are stored; on any failure the function returns -1 without
writing them. -/
def krowno_deflate (comp : List Nat → Int → Option (List Nat)) (bound : Nat → Nat)
    (mallocOk : Bool) (input : List Nat) (level : Int) : DeflateResult :=
  if input.length = 0 then ⟨-1, none, []⟩
  else if mallocOk then
    match comp input level with
    | none => ⟨-1, none, [bound input.length]⟩
    | some c => ⟨0, some (c, c.length), [bound input.length]⟩
  else ⟨-1, none, [bound input.length]⟩

/-- Allocation oracle under which every malloc succeeds. -/
def mallocAll : Nat → Bool := fun _ => true

/-- Decoding function of a stream format in which every input is malformed;
used to exercise the corruption paths. -/
def decodeNone : List Nat → Option (List Nat) := fun _ => none

/-- Length of the C string held in a byte buffer: the bytes before the first
zero byte (strlen). -/
def cstr (l : List Nat) : List Nat := l.takeWhile (fun b => b != 0)

/-- Number of bytes strlen reports for a buffer: the length of its longest
zero-free leading run. -/
def cstrlen (l : List Nat) : Nat := (cstr l).length

/-- Accumulator state of krowno_execute_command: the bytes written so far
(result[0 .. result_size)) and the allocated capacity. -/
structure ExecBuf where
  data : List Nat
  cap : Nat
deriving DecidableEq

/-- Outcome of one iteration of the krowno_execute_command read loop.
allocFail carries the accumulator state that survives the realloc failure:
the C code (lines 271-273) frees the buffer and aborts the whole command
with -1, so the surviving state is none.  overflow marks a strcpy past the
end of the allocation (undefined behaviour in C); it is unreachable for the
chunks fgets can deliver, as proved below. -/
inductive ExecStep where
  | ok (st : ExecBuf)
  | allocFail (survivor : Option ExecBuf)
  | overflow
deriving DecidableEq

/-- Copy step of the loop body: strcpy(result + result_size, buffer) writes
the zero-free leading run of the chunk plus a terminating zero byte, so it
needs result_size + len + 1 bytes of capacity; result_size then advances by
len = strlen(buffer). -/
def execWrite (st : ExecBuf) (chunk : List Nat) : ExecStep :=
  if st.data.length + cstrlen chunk + 1 ≤ st.cap then
    ExecStep.ok ⟨st.data ++ cstr chunk, st.cap⟩
  else ExecStep.overflow

/-- One iteration of the krowno_execute_command read loop (src/c_bindings.c
lines 265-279) applied to the byte content fgets placed in buffer: when
result_size + strlen(buffer) reaches the capacity, the capacity is doubled
once and the buffer reallocated (realloc preserves the bytes already
written); a failed realloc frees the buffer and aborts; then the chunk is
strcpy-ed at the end. -/
def execAppend (allocOk : Bool) (st : ExecBuf) (chunk : List Nat) : ExecStep :=
  if st.cap ≤ st.data.length + cstrlen chunk then
    if allocOk then execWrite ⟨st.data, st.cap * 2⟩ chunk
    else ExecStep.allocFail none
  else execWrite st chunk

/-- The whole read loop of krowno_execute_command: chunks are appended in
order; the loop delivers the final accumulator, or none when an iteration
aborted.  The initial state in the C code is an empty buffer of capacity
1024 (lines 255-258). -/
def execRun (allocOk : Bool) : ExecBuf → List (List Nat) → Option ExecBuf
  | st, [] => some st
  | st, c :: cs =>
    match execAppend allocOk st c with
    | ExecStep.ok st' => execRun allocOk st' cs
    | _ => none

/-- State of a krowno_http_response during a transfer: the entire contents
of the allocated region (so the allocation size is buf.length) and the size
field.  krowno_http_get creates it with calloc, so data starts as the null
pointer (empty region) and size as 0. -/
structure HttpResp where
  buf : List Nat
  size : Nat
deriving DecidableEq

/-- Outcome of one invocation of the curl write callback: the response state
after the call and the callback's return value. -/
inductive CurlRes where
  | ok (st : HttpResp) (ret : Nat)
  | fail (st : HttpResp) (ret : Nat)
deriving DecidableEq

/-- Model of krowno_curl_write_callback (src/c_bindings.c lines 121-136)
applied to a delivered chunk of realsize = size * nmemb bytes: the data
region is reallocated to exactly size + realsize + 1 bytes (realloc
preserves the bytes below the old allocation size, and every byte from
index size on is overwritten next), the chunk is copied at index size, a
zero byte is stored behind it, and size advances; the callback returns
realsize.  When realloc fails the callback returns 0 with the response
untouched (a failed realloc leaves the old region valid). -/
def krowno_curl_write_callback (allocOk : Bool) (st : HttpResp) (chunk : List Nat) : CurlRes :=
  if allocOk then
    CurlRes.ok ⟨st.buf.take st.size ++ chunk ++ [0], st.size + chunk.length⟩ chunk.length
  else CurlRes.fail st 0

/-- A full transfer: the write callback is invoked once per delivered chunk,
in order, starting from the calloc-ed response of krowno_http_get. -/
def curlRun : HttpResp → List (List Nat) → HttpResp
  | st, [] => st
  | st, c :: cs =>
    match krowno_curl_write_callback true st c with
    | CurlRes.ok st' _ => curlRun st' cs
    | CurlRes.fail st' _ => st'

/-- Concatenation of a sequence of chunks. -/
def concatAll (ls : List (List Nat)) : List Nat := ls.foldr (fun a b => a ++ b) []

/-- Sum of the lengths of a sequence of chunks. -/
def sumLens (ls : List (List Nat)) : Nat := (ls.map List.length).sum

/-- Closed-form zlib compressBound (the worst-case deflate expansion of the
zlib manual), used to instantiate the bound parameter in concrete runs. -/
def zbound : Nat → Nat := fun n => n + n / 1000 + 64

/-- Concrete decompressed payload: 40000 zero bytes.  Real zlib compresses
such a run to well under 256 bytes, so the compression ratio below is one
zlib actually achieves. -/
def b0 : List Nat := List.replicate 40000 0

/-- Concrete compressed payload standing for the compression of b0. -/
def c0 : List Nat := List.replicate 256 1

/-- Decoding function of a format in which c0 is the well-formed compression
of b0 and everything else is malformed. -/
def decode0 : List Nat → Option (List Nat) := fun c => if c = c0 then some b0 else none

/-- Matching compressor: b0 compresses to c0 at every level; together with
decode0 it satisfies the zlib round-trip contract. -/
def comp0 : List Nat → Int → Option (List Nat) := fun b _ => if b = b0 then some c0 else none

/-- A compressor that prepends a single marker byte, paired with decode1;
they satisfy the zlib round-trip contract and serve as concrete witnesses. -/
def comp1 : List Nat → Int → Option (List Nat) := fun b _ => some (0 :: b)

/-- Decoder inverting comp1: strips the marker byte. -/
def decode1 : List Nat → Option (List Nat) := fun c => c.tail?

/-- One unfolding step of the retry loop of krowno_inflate. -/
theorem inflateGo_succ (decode : List Nat → Option (List Nat)) (mallocOk : Nat → Bool)
    (input : List Nat) (i fuel cap : Nat) :
    inflateGo decode mallocOk input i (fuel + 1) cap =
      if mallocOk i then
        match uncomp decode input cap with
        | ZRes.ok out => ⟨0, some (out, out.length), [cap]⟩
        | _ => ⟨(inflateGo decode mallocOk input (i + 1) fuel (cap * 2)).ret,
                (inflateGo decode mallocOk input (i + 1) fuel (cap * 2)).writes,
                cap :: (inflateGo decode mallocOk input (i + 1) fuel (cap * 2)).caps⟩
      else ⟨-1, none, [cap]⟩ := rfl

/-- When the stream is well formed and its content fits within fuel
doublings of the starting capacity, the retry loop succeeds and stores the
decoded content and its exact length. -/
theorem inflateGo_ok (decode : List Nat → Option (List Nat)) (input out : List Nat)
    (hd : decode input = some out) :
    ∀ fuel i cap, out.length ≤ cap * 2 ^ fuel →
      (inflateGo decode mallocAll input i (fuel + 1) cap).ret = 0 ∧
      (inflateGo decode mallocAll input i (fuel + 1) cap).writes = some (out, out.length) := by
  intro fuel
  induction fuel with
  | zero =>
    intro i cap h
    have hc : out.length ≤ cap := by simpa using h
    have huc : uncomp decode input cap = ZRes.ok out := by simp [uncomp, hd, hc]
    have hm : mallocAll i = true := rfl
    rw [inflateGo_succ, if_pos hm, huc]
    exact ⟨rfl, rfl⟩
  | succ fuel ih =>
    intro i cap h
    by_cases hc : out.length ≤ cap
    · have huc : uncomp decode input cap = ZRes.ok out := by simp [uncomp, hd, hc]
      have hm : mallocAll i = true := rfl
      rw [inflateGo_succ, if_pos hm, huc]
      exact ⟨rfl, rfl⟩
    · have h' : out.length ≤ cap * 2 * 2 ^ fuel := by
        calc out.length ≤ cap * 2 ^ (fuel + 1) := h
        _ = cap * 2 * 2 ^ fuel := by ring
      have hrec := ih (i + 1) (cap * 2) h'
      have huc : uncomp decode input cap = ZRes.bufError := by simp [uncomp, hd, hc]
      have hm : mallocAll i = true := rfl
      rw [inflateGo_succ, if_pos hm, huc]
      exact hrec

/-- When the stream is malformed, every attempt gets a data error, so the
loop burns all its fuel, one malloc per attempt, and fails without storing
anything. -/
theorem inflateGo_dataFail (decode : List Nat → Option (List Nat)) (input : List Nat)
    (hd : decode input = none) :
    ∀ fuel i cap,
      (inflateGo decode mallocAll input i fuel cap).ret = -1 ∧
      (inflateGo decode mallocAll input i fuel cap).writes = none ∧
      (inflateGo decode mallocAll input i fuel cap).caps.length = fuel := by
  intro fuel
  induction fuel with
  | zero => intro i cap; exact ⟨rfl, rfl, rfl⟩
  | succ fuel ih =>
    intro i cap
    have hrec := ih (i + 1) (cap * 2)
    have huc : uncomp decode input cap = ZRes.dataError := by simp [uncomp, hd]
    have hm : mallocAll i = true := rfl
    rw [inflateGo_succ, if_pos hm, huc]
    exact ⟨hrec.1, hrec.2.1, by simpa using hrec.2.2⟩

/-- When the stream is well formed but its content exceeds even the last
candidate capacity, every attempt gets Z_BUF_ERROR, so the loop burns all
its fuel and fails without storing anything. -/
theorem inflateGo_bufFail (decode : List Nat → Option (List Nat)) (input out : List Nat)
    (hd : decode input = some out) :
    ∀ fuel i cap, cap * 2 ^ fuel < out.length →
      (inflateGo decode mallocAll input i (fuel + 1) cap).ret = -1 ∧
      (inflateGo decode mallocAll input i (fuel + 1) cap).writes = none ∧
      (inflateGo decode mallocAll input i (fuel + 1) cap).caps.length = fuel + 1 := by
  intro fuel
  induction fuel with
  | zero =>
    intro i cap h
    have hc : ¬ out.length ≤ cap := by
      simp only [pow_zero, mul_one] at h
      omega
    have huc : uncomp decode input cap = ZRes.bufError := by simp [uncomp, hd, hc]
    have hm : mallocAll i = true := rfl
    rw [inflateGo_succ, if_pos hm, huc]
    exact ⟨rfl, rfl, rfl⟩
  | succ fuel ih =>
    intro i cap h
    have hcap : cap ≤ cap * 2 ^ (fuel + 1) :=
      Nat.le_mul_of_pos_right cap (Nat.pos_pow_of_pos _ (by omega))
    have hc : ¬ out.length ≤ cap := by omega
    have h' : cap * 2 * 2 ^ fuel < out.length := by
      calc cap * 2 * 2 ^ fuel = cap * 2 ^ (fuel + 1) := by ring
      _ < out.length := h
    have hrec := ih (i + 1) (cap * 2) h'
    have huc : uncomp decode input cap = ZRes.bufError := by simp [uncomp, hd, hc]
    have hm : mallocAll i = true := rfl
    rw [inflateGo_succ, if_pos hm, huc]
    exact ⟨hrec.1, hrec.2.1, by simpa using hrec.2.2⟩

/-- The candidate capacities recorded by the retry loop always form a
doubling chain from the starting capacity: they are cap * 2 ^ 0,
cap * 2 ^ 1, and so on, up to however many attempts ran, and at least one
attempt runs whenever there is fuel. -/
theorem inflateGo_caps (decode : List Nat → Option (List Nat)) (mallocOk : Nat → Bool)
    (input : List Nat) :
    ∀ fuel i cap, ∃ k,
      (inflateGo decode mallocOk input i fuel cap).caps =
        (List.range k).map (fun j => cap * 2 ^ j) ∧ (fuel ≠ 0 → 1 ≤ k) := by
  intro fuel
  induction fuel with
  | zero => intro i cap; exact ⟨0, rfl, by simp⟩
  | succ fuel ih =>
    intro i cap
    by_cases hm : mallocOk i = true
    · match huc : uncomp decode input cap with
      | ZRes.ok out =>
        refine ⟨1, ?_, by simp⟩
        rw [inflateGo_succ, if_pos hm, huc]
        simp [List.range_succ]
      | ZRes.bufError =>
        obtain ⟨k, hk, -⟩ := ih (i + 1) (cap * 2)
        refine ⟨k + 1, ?_, by simp⟩
        rw [inflateGo_succ, if_pos hm, huc]
        show cap :: (inflateGo decode mallocOk input (i + 1) fuel (cap * 2)).caps = _
        rw [hk, List.range_succ_eq_map, List.map_cons, List.map_map]
        congr 1
        · simp
        · apply List.map_congr_left
          intro j hj
          simp only [Function.comp_apply, pow_succ]
          ring
      | ZRes.dataError =>
        obtain ⟨k, hk, -⟩ := ih (i + 1) (cap * 2)
        refine ⟨k + 1, ?_, by simp⟩
        rw [inflateGo_succ, if_pos hm, huc]
        show cap :: (inflateGo decode mallocOk input (i + 1) fuel (cap * 2)).caps = _
        rw [hk, List.range_succ_eq_map, List.map_cons, List.map_map]
        congr 1
        · simp
        · apply List.map_congr_left
          intro j hj
          simp only [Function.comp_apply, pow_succ]
          ring
    · refine ⟨1, ?_, by simp⟩
      rw [inflateGo_succ, if_neg hm]
      simp [List.range_succ]

/-- The retry loop stores through the output pointers only when it returns
zero. -/
theorem inflateGo_writes (decode : List Nat → Option (List Nat)) (mallocOk : Nat → Bool)
    (input : List Nat) :
    ∀ fuel i cap, (inflateGo decode mallocOk input i fuel cap).ret ≠ 0 →
      (inflateGo decode mallocOk input i fuel cap).writes = none := by
  intro fuel
  induction fuel with
  | zero => intro i cap _; rfl
  | succ fuel ih =>
    intro i cap h
    by_cases hm : mallocOk i = true
    · match huc : uncomp decode input cap with
      | ZRes.ok out =>
        rw [inflateGo_succ, if_pos hm, huc] at h
        exact absurd rfl h
      | ZRes.bufError =>
        rw [inflateGo_succ, if_pos hm, huc] at h ⊢
        exact ih (i + 1) (cap * 2) h
      | ZRes.dataError =>
        rw [inflateGo_succ, if_pos hm, huc] at h ⊢
        exact ih (i + 1) (cap * 2) h
    · rw [inflateGo_succ, if_neg hm]

/-- strlen never reports more bytes than the buffer holds. -/
theorem cstrlen_le (l : List Nat) : cstrlen l ≤ l.length := by
  unfold cstrlen cstr
  induction l with
  | nil => simp
  | cons b t ih =>
    by_cases hb : b != 0
    · simpa [List.takeWhile, hb] using ih
    · simp [List.takeWhile, hb]

/-- A buffer without zero bytes is its own C string. -/
theorem cstr_eq_self (l : List Nat) (h : ∀ b ∈ l, b ≠ 0) : cstr l = l := by
  unfold cstr
  induction l with
  | nil => rfl
  | cons b t ih =>
    have hb : b != 0 := by simpa using h b (by simp)
    have ht := ih (fun x hx => h x (by simp [hx]))
    simp [List.takeWhile, hb, ht]

/-- Under the loop invariant of krowno_execute_command (some capacity slack
and the initial 1024 floor) an append of an fgets-sized chunk always
succeeds: the capacity doubles exactly when the trigger fires, and the
written bytes are extended by the C string of the chunk.  The invariant is
preserved. -/
theorem execAppend_ok (st : ExecBuf) (chunk : List Nat)
    (hinv : st.data.length < st.cap) (hfloor : 1024 ≤ st.cap)
    (hchunk : chunk.length ≤ 255) :
    execAppend true st chunk =
      ExecStep.ok ⟨st.data ++ cstr chunk,
        if st.cap ≤ st.data.length + cstrlen chunk then st.cap * 2 else st.cap⟩ ∧
      st.data.length + cstrlen chunk <
        (if st.cap ≤ st.data.length + cstrlen chunk then st.cap * 2 else st.cap) ∧
      1024 ≤ (if st.cap ≤ st.data.length + cstrlen chunk then st.cap * 2 else st.cap) := by
  have hlen : cstrlen chunk ≤ 255 := le_trans (cstrlen_le chunk) hchunk
  by_cases htrig : st.cap ≤ st.data.length + cstrlen chunk
  · have hfit : st.data.length + cstrlen chunk + 1 ≤ st.cap * 2 := by omega
    refine ⟨?_, by simp [htrig]; omega, by simp [htrig]; omega⟩
    rw [execAppend, if_pos htrig, if_pos rfl, execWrite, if_pos hfit, if_pos htrig]
  · have hfit : st.data.length + cstrlen chunk + 1 ≤ st.cap := by omega
    refine ⟨?_, by simp [htrig]; omega, by simp [htrig]; omega⟩
    rw [execAppend, if_neg htrig, execWrite, if_pos hfit, if_neg htrig]

/-- Fidelity of the krowno_execute_command read loop: from a state
satisfying the loop invariant, appending any sequence of fgets-sized chunks
succeeds and extends the written bytes by the concatenation of the C
strings of the chunks. -/
theorem execRun_ok (chunks : List (List Nat)) :
    ∀ st : ExecBuf, st.data.length < st.cap → 1024 ≤ st.cap →
      (∀ c ∈ chunks, c.length ≤ 255) →
      ∃ st' : ExecBuf, execRun true st chunks = some st' ∧
        st'.data = st.data ++ concatAll (chunks.map cstr) := by
  induction chunks with
  | nil => intro st h1 h2 _; exact ⟨st, rfl, by simp [concatAll]⟩
  | cons c cs ih =>
    intro st h1 h2 hall
    have hc : c.length ≤ 255 := hall c (by simp)
    obtain ⟨happ, hinv', hfloor'⟩ := execAppend_ok st c h1 h2 hc
    have hlen : (st.data ++ cstr c).length = st.data.length + cstrlen c := by
      simp [cstrlen]
    obtain ⟨st', hrun, hdata⟩ :=
      ih ⟨st.data ++ cstr c, if st.cap ≤ st.data.length + cstrlen c then st.cap * 2 else st.cap⟩
        (by simpa [hlen] using hinv') hfloor' (fun x hx => hall x (by simp [hx]))
    refine ⟨st', ?_, ?_⟩
    · rw [execRun, happ]
      exact hrun
    · rw [hdata]
      simp [concatAll]

/-- After a successful write callback the response holds the old content
followed by the chunk and a zero byte, the size advances by the chunk
length, and the size stays within the allocation. -/
theorem curl_step (st : HttpResp) (chunk : List Nat) (h : st.size ≤ st.buf.length) :
    krowno_curl_write_callback true st chunk =
      CurlRes.ok ⟨st.buf.take st.size ++ chunk ++ [0], st.size + chunk.length⟩ chunk.length ∧
    (st.buf.take st.size ++ chunk ++ [0]).take (st.size + chunk.length) =
      st.buf.take st.size ++ chunk ∧
    st.size + chunk.length ≤ (st.buf.take st.size ++ chunk ++ [0]).length := by
  have hlt : (st.buf.take st.size).length = st.size := by
    simp [List.length_take]
    omega
  refine ⟨rfl, ?_, ?_⟩
  case refine_2 =>
    simp only [List.length_append, List.length_take, List.length_cons, List.length_nil]
    omega
  have hlen : (st.buf.take st.size ++ chunk).length = st.size + chunk.length := by
    simp [hlt]
  calc (st.buf.take st.size ++ chunk ++ [0]).take (st.size + chunk.length)
      = ((st.buf.take st.size ++ chunk) ++ [0]).take (st.buf.take st.size ++ chunk).length := by
        rw [hlen]
    _ = st.buf.take st.size ++ chunk := List.take_left _ _

/-- Fidelity of a whole transfer: from any response state whose size is
within its allocation, invoking the write callback on a sequence of chunks
adds exactly their total length to the size and their concatenation to the
content. -/
theorem curlRun_ok (chunks : List (List Nat)) :
    ∀ st : HttpResp, st.size ≤ st.buf.length →
      (curlRun st chunks).size = st.size + sumLens chunks ∧
      (curlRun st chunks).size ≤ (curlRun st chunks).buf.length ∧
      (curlRun st chunks).buf.take (curlRun st chunks).size =
        st.buf.take st.size ++ concatAll chunks := by
  induction chunks with
  | nil =>
    intro st h
    refine ⟨by simp [curlRun, sumLens], by simpa [curlRun] using h, ?_⟩
    simp [curlRun, concatAll]
  | cons c cs ih =>
    intro st h
    obtain ⟨hstep, htake, hsz⟩ := curl_step st c h
    have hrunstep :
        curlRun st (c :: cs) =
          curlRun ⟨st.buf.take st.size ++ c ++ [0], st.size + c.length⟩ cs := by
      rw [curlRun, hstep]
    obtain ⟨ih1, ih2, ih3⟩ :=
      ih ⟨st.buf.take st.size ++ c ++ [0], st.size + c.length⟩ hsz
    refine ⟨?_, ?_, ?_⟩
    · rw [hrunstep, ih1]
      simp [sumLens]
      omega
    · rw [hrunstep]
      exact ih2
    · rw [hrunstep, ih3]
      show (st.buf.take st.size ++ c ++ [0]).take (st.size + c.length) ++ concatAll cs = _
      rw [htake, concatAll]
      simp [concatAll]

/-- From a successful lookup in the list of capacities of the doubling
chain, the index is in range and the value is the chain element there. -/
theorem range_map_get (f : Nat → Nat) (k i a : Nat)
    (h : ((List.range k).map f).get? i = some a) : i < k ∧ a = f i := by
  rw [List.get?_map] at h
  cases hri : (List.range k).get? i with
  | none => rw [hri] at h; simp at h
  | some v =>
    have hik : i < k := by
      by_contra hc
      have hnone : (List.range k).get? i = none :=
        List.get?_eq_none.mpr (by simpa using Nat.le_of_not_lt hc)
      rw [hnone] at hri
      exact Option.noConfusion hri
    have hv : v = i := by
      have h2 := List.get?_range hik
      rw [h2] at hri
      exact (Option.some_inj.mp hri).symm
    rw [hri] at h
    simp at h
    exact ⟨hik, by rw [← h, hv]⟩

/-- C8: krowno_deflate and krowno_inflate both reject an empty input with
the error return -1, for every compression level and before performing any
allocation (no malloc size is ever requested). -/
theorem claim_C8_empty_rejection (comp : List Nat → Int → Option (List Nat))
    (bound : Nat → Nat) (m1 : Bool) (level : Int)
    (decode : List Nat → Option (List Nat)) (mOk : Nat → Bool) :
    krowno_deflate comp bound m1 [] level = ⟨-1, none, []⟩ ∧
    krowno_inflate decode mOk [] = ⟨-1, none, []⟩ :=
  ⟨rfl, rfl⟩

/-- C10: whenever krowno_deflate or krowno_inflate returns a nonzero (error)
code, the caller-supplied output pointer and output-length locations are not
written; they are stored only on the success path. -/
theorem claim_C10_outputs_unwritten_on_error (comp : List Nat → Int → Option (List Nat))
    (bound : Nat → Nat) (m1 : Bool) (input : List Nat) (level : Int)
    (decode : List Nat → Option (List Nat)) (mOk : Nat → Bool) :
    ((krowno_deflate comp bound m1 input level).ret ≠ 0 →
      (krowno_deflate comp bound m1 input level).writes = none) ∧
    ((krowno_inflate decode mOk input).ret ≠ 0 →
      (krowno_inflate decode mOk input).writes = none) := by
  constructor
  · intro h
    by_cases he : input.length = 0
    · simp [krowno_deflate, he]
    · by_cases hm : m1 = true
      · cases hc : comp input level with
        | none => simp [krowno_deflate, he, hm, hc]
        | some c => simp [krowno_deflate, he, hm, hc] at h
      · simp [krowno_deflate, he, hm]
  · intro h
    by_cases he : input.length = 0
    · simp [krowno_inflate, he]
    · rw [krowno_inflate, if_neg he] at h ⊢
      exact inflateGo_writes decode mOk input 6 0 _ h

/-- Concrete check of C10: the error paths of both functions leave the
output locations unwritten. -/
theorem claim_C10_outputs_unwritten_on_error_witness :
    (krowno_deflate comp0 zbound true [7] 6).writes = none ∧
    (krowno_inflate decodeNone mallocAll [7]).writes = none :=
  ⟨(claim_C10_outputs_unwritten_on_error comp0 zbound true [7] 6 decodeNone mallocAll).1
      (by decide),
   (claim_C10_outputs_unwritten_on_error comp0 zbound true [7] 6 decodeNone mallocAll).2
      (by decide)⟩

/-- C7: on a non-empty input the first candidate capacity of krowno_inflate
is max(4 x n, 1024), and whenever two consecutive attempts exist the later
candidate capacity is exactly twice the earlier one. -/
theorem claim_C7_capacity_schedule (decode : List Nat → Option (List Nat))
    (mOk : Nat → Bool) (input : List Nat) (hne : input ≠ []) :
    (krowno_inflate decode mOk input).caps.head? = some (max (input.length * 4) 1024) ∧
    ∀ i a b, (krowno_inflate decode mOk input).caps.get? i = some a →
      (krowno_inflate decode mOk input).caps.get? (i + 1) = some b → b = 2 * a := by
  have he : ¬ input.length = 0 := by simpa using hne
  rw [krowno_inflate, if_neg he]
  obtain ⟨k, hk, hk1⟩ := inflateGo_caps decode mOk input 6 0 (max (input.length * 4) 1024)
  rw [hk]
  constructor
  · have h1 : 1 ≤ k := hk1 (by norm_num)
    obtain ⟨k', rfl⟩ : ∃ k', k = k' + 1 := ⟨k - 1, by omega⟩
    simp [List.range_succ_eq_map]
  · intro i a b ha hb
    obtain ⟨hik, hav⟩ := range_map_get _ k i a ha
    obtain ⟨hjk, hbv⟩ := range_map_get _ k (i + 1) b hb
    rw [hav, hbv, pow_succ]
    ring

/-- Concrete check of C7: for a 1-byte input the first candidate capacity
is 1024 and the second is its double. -/
theorem claim_C7_capacity_schedule_witness :
    (krowno_inflate decodeNone mallocAll [7]).caps.head? = some 1024 ∧
    (2048 : Nat) = 2 * 1024 := by
  have h := claim_C7_capacity_schedule decodeNone mallocAll [7] (by decide)
  exact ⟨by simpa using h.1, h.2 0 1024 2048 (by decide) (by decide)⟩

/-- C2 as stated is false: on a malformed 1-byte input krowno_inflate does
not stop after the first failed attempt; it runs all 6 attempts, doubling
the candidate capacity five times, before returning -1. -/
theorem claim_C2_counterexample :
    krowno_inflate decodeNone mallocAll [7] =
      ⟨-1, none, [1024, 2048, 4096, 8192, 16384, 32768]⟩ := by decide

/-- C2 amended: on a non-empty input that the decompression routine rejects
as malformed, krowno_inflate does not short-circuit: every failure, data
error included, doubles the capacity and retries, so all 6 attempts run
before the function returns the error code -1 (the same value as every
other failure) without writing the outputs. -/
theorem claim_C2_corruption_retries (decode : List Nat → Option (List Nat))
    (input : List Nat) (hne : input ≠ []) (hd : decode input = none) :
    (krowno_inflate decode mallocAll input).caps.length = 6 ∧
    (krowno_inflate decode mallocAll input).ret = -1 ∧
    (krowno_inflate decode mallocAll input).writes = none := by
  have he : ¬ input.length = 0 := by simpa using hne
  rw [krowno_inflate, if_neg he]
  obtain ⟨h1, h2, h3⟩ := inflateGo_dataFail decode input hd 6 0 (max (input.length * 4) 1024)
  exact ⟨h3, h1, h2⟩

/-- Concrete check of the amended C2 on a malformed 1-byte input. -/
theorem claim_C2_corruption_retries_witness :
    (krowno_inflate decodeNone mallocAll [9]).caps.length = 6 ∧
    (krowno_inflate decodeNone mallocAll [9]).ret = -1 ∧
    (krowno_inflate decodeNone mallocAll [9]).writes = none :=
  claim_C2_corruption_retries decodeNone [9] (by decide) rfl


/-- Length of the concrete big payload b0. -/
theorem b0_length : (b0 : List Nat).length = 40000 := List.length_replicate 40000 0

/-- Length of the concrete compressed payload c0. -/
theorem c0_length : (c0 : List Nat).length = 256 := List.length_replicate 256 1

/-- decode0 accepts c0 and yields b0. -/
theorem decode0_c0 : decode0 c0 = some b0 := if_pos rfl

/-- comp0 compresses b0 to c0 at every level. -/
theorem comp0_b0 (level : Int) : comp0 b0 level = some c0 := if_pos rfl

/-- On the concrete oversized payload, krowno_inflate burns exactly 6
attempts and fails with -1 and unwritten outputs. -/
theorem inflate_c0_fails :
    (krowno_inflate decode0 mallocAll c0).caps.length = 6 ∧
    (krowno_inflate decode0 mallocAll c0).ret = -1 ∧
    (krowno_inflate decode0 mallocAll c0).writes = none := by
  have he : ¬ (c0 : List Nat).length = 0 := by rw [c0_length]; norm_num
  have hcap : max ((c0 : List Nat).length * 4) 1024 = 1024 := by rw [c0_length]; decide
  have hbig : (1024 : Nat) * 2 ^ 5 < (b0 : List Nat).length := by rw [b0_length]; norm_num
  obtain ⟨h1, h2, h3⟩ := inflateGo_bufFail decode0 c0 b0 decode0_c0 5 0 1024 hbig
  rw [krowno_inflate, if_neg he, hcap]
  exact ⟨h3, h1, h2⟩

/-- C6 as stated is false in its distinctness part: a valid stream whose
content exceeds the ceiling does make krowno_inflate fail after exactly 6
attempts, but the error it returns is the same -1 that a corrupt input
produces, with the same unwritten outputs, so capacity exhaustion is not
signalled distinctly from corruption. -/
theorem claim_C6_counterexample :
    (krowno_inflate decode0 mallocAll c0).caps.length = 6 ∧
    (krowno_inflate decode0 mallocAll c0).ret = -1 ∧
    (krowno_inflate decodeNone mallocAll [7]).ret = -1 ∧
    (krowno_inflate decode0 mallocAll c0).ret =
      (krowno_inflate decodeNone mallocAll [7]).ret ∧
    (krowno_inflate decode0 mallocAll c0).writes =
      (krowno_inflate decodeNone mallocAll [7]).writes := by
  obtain ⟨h1, h2, h3⟩ := inflate_c0_fails
  have hco : (krowno_inflate decodeNone mallocAll [7]).ret = -1 := by decide
  have hcw : (krowno_inflate decodeNone mallocAll [7]).writes = none := by decide
  exact ⟨h1, h2, hco, by rw [h2, hco], by rw [h3, hcw]⟩

/-- C6 amended: on a non-empty valid input whose decompressed size exceeds
the initial capacity guess times 2^5, krowno_inflate performs exactly 6
attempts, never fewer, never more, and then fails with the return code -1,
which is the same value used for corrupt input (the code does not
distinguish capacity exhaustion from corruption). -/
theorem claim_C6_ceiling_six_attempts (decode : List Nat → Option (List Nat))
    (input out : List Nat) (hne : input ≠ []) (hd : decode input = some out)
    (hbig : max (input.length * 4) 1024 * 2 ^ 5 < out.length) :
    (krowno_inflate decode mallocAll input).caps.length = 6 ∧
    (krowno_inflate decode mallocAll input).ret = -1 ∧
    (krowno_inflate decode mallocAll input).writes = none := by
  have he : ¬ input.length = 0 := by simpa using hne
  rw [krowno_inflate, if_neg he]
  obtain ⟨h1, h2, h3⟩ :=
    inflateGo_bufFail decode input out hd 5 0 (max (input.length * 4) 1024) hbig
  exact ⟨h3, h1, h2⟩

/-- Concrete check of the amended C6: a 256-byte stream expanding to 40000
bytes (beyond the 32768-byte ceiling) burns exactly 6 attempts and fails
with -1. -/
theorem claim_C6_ceiling_six_attempts_witness :
    (krowno_inflate decode0 mallocAll c0).caps.length = 6 ∧
    (krowno_inflate decode0 mallocAll c0).ret = -1 ∧
    (krowno_inflate decode0 mallocAll c0).writes = none :=
  claim_C6_ceiling_six_attempts decode0 c0 b0
    (by intro h; have hc := c0_length; rw [h] at hc; exact absurd hc (by norm_num))
    decode0_c0
    (by rw [c0_length, b0_length]; decide)

/-- C1 as stated is false: with a compressor and decoder satisfying the
zlib round-trip contract (here at a 156x compression ratio, well inside
what deflate can produce on a run of zero bytes), the 40000-byte payload b0
compresses successfully to the 256-byte stream c0, but krowno_inflate then
fails on c0, because 40000 exceeds the retry ceiling
max(4 x 256, 1024) x 2^5 = 32768. -/
theorem claim_C1_counterexample :
    comp0 b0 6 = some c0 ∧ decode0 c0 = some b0 ∧ b0 ≠ [] ∧
    krowno_deflate comp0 zbound true b0 6 = ⟨0, some (c0, 256), [zbound 40000]⟩ ∧
    (krowno_inflate decode0 mallocAll c0).ret = -1 ∧
    (krowno_inflate decode0 mallocAll c0).writes = none := by
  have hbl : ¬ (b0 : List Nat).length = 0 := by rw [b0_length]; norm_num
  have hbne : b0 ≠ [] := by
    intro h
    have hb := b0_length
    rw [h] at hb
    exact absurd hb (by norm_num)
  obtain ⟨-, h2, h3⟩ := inflate_c0_fails
  refine ⟨comp0_b0 6, decode0_c0, hbne, ?_, h2, h3⟩
  rw [krowno_deflate, if_neg hbl, if_pos rfl, comp0_b0 6]
  show DeflateResult.mk 0 (some (c0, (c0 : List Nat).length)) [zbound (b0 : List Nat).length] = _
  rw [c0_length, b0_length]

/-- C1 amended: the deflate-then-inflate round trip is exact whenever the
decompressed length stays within the retry ceiling
max(4 x compressed_length, 1024) x 2^5; the hypotheses on comp and decode
are zlib's round-trip contract for the given input.  (Payloads whose
decompressed size exceeds the ceiling are rejected, as the counterexample
shows.) -/
theorem claim_C1_roundtrip_below_ceiling (comp : List Nat → Int → Option (List Nat))
    (bound : Nat → Nat) (decode : List Nat → Option (List Nat))
    (b c : List Nat) (level : Int)
    (hb : b ≠ []) (hc : c ≠ [])
    (hcomp : comp b level = some c) (hdec : decode c = some b)
    (hceil : b.length ≤ max (c.length * 4) 1024 * 2 ^ 5) :
    krowno_deflate comp bound true b level = ⟨0, some (c, c.length), [bound b.length]⟩ ∧
    (krowno_inflate decode mallocAll c).ret = 0 ∧
    (krowno_inflate decode mallocAll c).writes = some (b, b.length) := by
  have hbl : ¬ b.length = 0 := by simpa using hb
  have hcl : ¬ c.length = 0 := by simpa using hc
  refine ⟨?_, ?_⟩
  · rw [krowno_deflate, if_neg hbl, if_pos rfl, hcomp]
  · rw [krowno_inflate, if_neg hcl]
    exact inflateGo_ok decode c b hdec 5 0 (max (c.length * 4) 1024) hceil

/-- Concrete check of the amended C1: a 1-byte payload round-trips exactly
through the marker-byte compressor. -/
theorem claim_C1_roundtrip_below_ceiling_witness :
    krowno_deflate comp1 zbound true [65] 6 = ⟨0, some ([0, 65], 2), [zbound 1]⟩ ∧
    (krowno_inflate decode1 mallocAll [0, 65]).ret = 0 ∧
    (krowno_inflate decode1 mallocAll [0, 65]).writes = some ([65], 1) := by
  have h := claim_C1_roundtrip_below_ceiling comp1 zbound decode1 [65] [0, 65] 6
    (by decide) (by decide) rfl rfl (by decide)
  exact h

/-- The byte behind the end of a list extended with a zero byte is zero. -/
theorem get_last_zero (l : List Nat) : (l ++ [0]).get? l.length = some 0 := by simp

/-- The concatenation of a chunk sequence has the summed length. -/
theorem concatAll_length (ls : List (List Nat)) : (concatAll ls).length = sumLens ls := by
  induction ls with
  | nil => rfl
  | cons c cs ih => simp [concatAll, sumLens] at ih ⊢; omega

/-- C9: after every successful invocation of the curl write callback from a
state whose size is within its allocation, the response buffer holds
exactly one byte beyond the reported size and that byte is zero: the
accumulated data is always NUL-terminated at index size. -/
theorem claim_C9_nul_terminated (st : HttpResp) (chunk : List Nat) (st' : HttpResp) (r : Nat)
    (h : st.size ≤ st.buf.length)
    (hcall : krowno_curl_write_callback true st chunk = CurlRes.ok st' r) :
    st'.buf.length = st'.size + 1 ∧ st'.buf.get? st'.size = some 0 := by
  have hst' : st' = ⟨st.buf.take st.size ++ chunk ++ [0], st.size + chunk.length⟩ := by
    have h2 : CurlRes.ok (⟨st.buf.take st.size ++ chunk ++ [0], st.size + chunk.length⟩ : HttpResp)
        chunk.length = CurlRes.ok st' r := hcall
    injection h2 with h3 h4
    exact h3.symm
  subst hst'
  have hA : (st.buf.take st.size ++ chunk).length = st.size + chunk.length := by
    simp [List.length_take]
    omega
  constructor
  · show ((st.buf.take st.size ++ chunk) ++ [0]).length = st.size + chunk.length + 1
    rw [List.length_append, hA]
    rfl
  · show ((st.buf.take st.size ++ chunk) ++ [0]).get? (st.size + chunk.length) = some 0
    rw [← hA]
    exact get_last_zero _

/-- Concrete check of C9 after one callback on a one-byte response. -/
theorem claim_C9_nul_terminated_witness :
    ((⟨[5, 7, 0], 2⟩ : HttpResp)).buf.length = 2 + 1 ∧
    ((⟨[5, 7, 0], 2⟩ : HttpResp)).buf.get? 2 = some 0 :=
  claim_C9_nul_terminated ⟨[5, 0], 1⟩ [7] ⟨[5, 7, 0], 2⟩ 1 (by decide) (by decide)

/-- C3 as stated is false at the response-body call site: appending a
3-byte chunk to a 10-byte response (11-byte allocation) reallocates to
exactly 10 + 3 + 1 = 14 bytes, not to max(2 x 11, 10 + 3) = 22 bytes —
the curl site never doubles. -/
theorem claim_C3_counterexample :
    krowno_curl_write_callback true ⟨List.replicate 10 7 ++ [0], 10⟩ [1, 2, 3] =
      CurlRes.ok ⟨List.replicate 10 7 ++ [1, 2, 3] ++ [0], 13⟩ 3 ∧
    (List.replicate 10 7 ++ [1, 2, 3] ++ [0] : List Nat).length = 14 ∧
    max (2 * (List.replicate 10 7 ++ [0] : List Nat).length) (10 + 3) = 22 ∧
    (14 : Nat) ≠ 22 := by decide

/-- C3 amended: when remaining capacity is insufficient, the subprocess
site doubles the capacity (which, for the at-most-255-byte chunks fgets
delivers and under the loop invariant, equals
max(2 x old capacity, length + chunk length)) before copying, and growth
preserves the previously written bytes; the response-body site instead
reallocates to exactly size + chunk length + 1 bytes on every call, also
preserving the previously written bytes. -/
theorem claim_C3_growth_policy :
    (∀ st : ExecBuf, ∀ chunk : List Nat,
      st.data.length < st.cap → 1024 ≤ st.cap → chunk.length ≤ 255 →
      st.cap ≤ st.data.length + cstrlen chunk →
      ∃ st' : ExecBuf, execAppend true st chunk = ExecStep.ok st' ∧
        st'.cap = 2 * st.cap ∧
        st'.cap = max (2 * st.cap) (st.data.length + cstrlen chunk) ∧
        st'.data.take st.data.length = st.data) ∧
    (∀ st : HttpResp, ∀ chunk : List Nat, ∀ st' : HttpResp, ∀ r : Nat,
      st.size ≤ st.buf.length →
      krowno_curl_write_callback true st chunk = CurlRes.ok st' r →
      st'.buf.length = st.size + chunk.length + 1 ∧
      st'.buf.take st.size = st.buf.take st.size) := by
  constructor
  · intro st chunk h1 h2 h3 htrig
    have hlen : cstrlen chunk ≤ 255 := le_trans (cstrlen_le chunk) h3
    obtain ⟨happ, -, -⟩ := execAppend_ok st chunk h1 h2 h3
    rw [if_pos htrig] at happ
    refine ⟨⟨st.data ++ cstr chunk, st.cap * 2⟩, happ, by ring, ?_, List.take_left _ _⟩
    show st.cap * 2 = _
    omega
  · intro st chunk st' r h hcall
    have hst' : st' = ⟨st.buf.take st.size ++ chunk ++ [0], st.size + chunk.length⟩ := by
      have h2 : CurlRes.ok
          (⟨st.buf.take st.size ++ chunk ++ [0], st.size + chunk.length⟩ : HttpResp)
          chunk.length = CurlRes.ok st' r := hcall
      injection h2 with h3 h4
      exact h3.symm
    subst hst'
    have hlt : (st.buf.take st.size).length = st.size := by
      simp [List.length_take]
      omega
    constructor
    · show ((st.buf.take st.size ++ chunk) ++ [0]).length = st.size + chunk.length + 1
      simp [List.length_take]
      omega
    · show ((st.buf.take st.size ++ chunk) ++ [0]).take st.size = st.buf.take st.size
      rw [List.append_assoc]
      calc (st.buf.take st.size ++ (chunk ++ [0])).take st.size
          = (st.buf.take st.size ++ (chunk ++ [0])).take (st.buf.take st.size).length := by
            rw [hlt]
        _ = st.buf.take st.size := List.take_left _ _

/-- Concrete check of the amended C3 at both call sites: a growth-triggering
append at the subprocess site doubles 1024 to 2048, and a curl append
preserves the byte below the old size. -/
theorem claim_C3_growth_policy_witness :
    (∃ st' : ExecBuf, execAppend true ⟨List.replicate 1020 9, 1024⟩ [1, 2, 3, 4, 5] =
      ExecStep.ok st' ∧ st'.cap = 2 * 1024) ∧
    ((⟨[8, 8, 0], 2⟩ : HttpResp)).buf.take 1 = ([8, 0] : List Nat).take 1 := by
  have hrep : (List.replicate 1020 9).length = 1020 := List.length_replicate 1020 9
  have h1 := claim_C3_growth_policy.1 ⟨List.replicate 1020 9, 1024⟩ [1, 2, 3, 4, 5]
    (by show (List.replicate 1020 9).length < 1024; rw [hrep]; norm_num)
    (by norm_num)
    (by norm_num)
    (by simp only [List.length_replicate]; decide)
  have h2 := claim_C3_growth_policy.2 ⟨[8, 0], 1⟩ [8] ⟨[8, 8, 0], 2⟩ 1 (by decide) (by decide)
  obtain ⟨st', happ, hcap, -, -⟩ := h1
  exact ⟨⟨st', happ, hcap⟩, h2.2⟩

/-- C4 as stated is false at the subprocess call site: when growth is
needed and the reallocation fails, the append outcome carries no surviving
accumulator — the code frees the buffer and aborts the command, so the
prior contents do not remain valid and no retry is possible. -/
theorem claim_C4_counterexample :
    execAppend false ⟨[65, 66], 2⟩ [1, 2, 3] = ExecStep.allocFail none ∧
    ExecStep.allocFail none ≠ ExecStep.allocFail (some ⟨[65, 66], 2⟩) := by decide

/-- C4 amended: at the response-body site an allocation failure makes the
callback return 0 with the response state untouched, so the prior contents
remain valid and unchanged and the caller may retry or abandon; at the
subprocess site, an allocation failure on a growth-requiring append frees
the buffer and aborts the command with -1, destroying the accumulated
bytes. -/
theorem claim_C4_alloc_failure :
    (∀ st : HttpResp, ∀ chunk : List Nat,
      krowno_curl_write_callback false st chunk = CurlRes.fail st 0) ∧
    (∀ st : ExecBuf, ∀ chunk : List Nat,
      st.cap ≤ st.data.length + cstrlen chunk →
      execAppend false st chunk = ExecStep.allocFail none) := by
  constructor
  · intro st chunk
    rfl
  · intro st chunk h
    rw [execAppend, if_pos h]
    rfl

/-- Concrete check of the amended C4 at both call sites. -/
theorem claim_C4_alloc_failure_witness :
    krowno_curl_write_callback false ⟨[3, 0], 1⟩ [4] = CurlRes.fail ⟨[3, 0], 1⟩ 0 ∧
    execAppend false ⟨[9, 9], 2⟩ [5] = ExecStep.allocFail none :=
  ⟨claim_C4_alloc_failure.1 ⟨[3, 0], 1⟩ [4],
   claim_C4_alloc_failure.2 ⟨[9, 9], 2⟩ [5] (by decide)⟩

/-- C5 as stated is false at the subprocess call site: the chunk containing
a zero byte is copied with strcpy, which truncates it at the zero, so the
finalized output is a single byte instead of the 3-byte concatenation. -/
theorem claim_C5_counterexample :
    execRun true ⟨[], 1024⟩ [[65, 0, 66]] = some ⟨[65], 1024⟩ ∧
    concatAll [[65, 0, 66]] = [65, 0, 66] ∧
    sumLens [[65, 0, 66]] = 3 ∧
    ([65] : List Nat) ≠ [65, 0, 66] ∧ (1 : Nat) ≠ 3 := by decide

/-- C5 amended: finalizing after appending chunks in order yields exactly
their concatenation with the reported length equal to the summed chunk
lengths — unconditionally at the response-body site (zero-length chunks
included), and at the subprocess site provided each chunk fits the 256-byte
fgets buffer and contains no zero byte (chunks are copied as C strings, so
a zero byte truncates). -/
theorem claim_C5_accumulator_fidelity :
    (∀ chunks : List (List Nat),
      (curlRun ⟨[], 0⟩ chunks).size = sumLens chunks ∧
      (curlRun ⟨[], 0⟩ chunks).buf.take (sumLens chunks) = concatAll chunks) ∧
    (∀ chunks : List (List Nat),
      (∀ c ∈ chunks, c.length ≤ 255) → (∀ c ∈ chunks, ∀ b ∈ c, b ≠ 0) →
      ∃ st' : ExecBuf, execRun true ⟨[], 1024⟩ chunks = some st' ∧
        st'.data = concatAll chunks ∧ st'.data.length = sumLens chunks) := by
  constructor
  · intro chunks
    obtain ⟨h1, h2, h3⟩ := curlRun_ok chunks ⟨[], 0⟩ (by norm_num)
    have h1' : (curlRun ⟨[], 0⟩ chunks).size = sumLens chunks := by simpa using h1
    refine ⟨h1', ?_⟩
    rw [← h1']
    simpa using h3
  · intro chunks hlen hnul
    obtain ⟨st', hrun, hdata⟩ := execRun_ok chunks ⟨[], 1024⟩ (by norm_num) (by norm_num) hlen
    have hmap : chunks.map cstr = chunks := by
      calc chunks.map cstr = chunks.map id :=
            List.map_congr_left (fun c hc => cstr_eq_self c (hnul c hc))
        _ = chunks := List.map_id chunks
    have hdata' : st'.data = concatAll chunks := by
      rw [hdata, hmap]
      rfl
    exact ⟨st', hrun, hdata', by rw [hdata', concatAll_length]⟩

/-- Concrete check of the amended C5: a three-chunk transfer with an empty
chunk accumulates to the exact total, and a two-chunk subprocess run
concatenates exactly. -/
theorem claim_C5_accumulator_fidelity_witness :
    (curlRun ⟨[], 0⟩ [[1, 2], [], [3]]).size = 3 ∧
    (∃ st' : ExecBuf, execRun true ⟨[], 1024⟩ [[65, 66], [67]] = some st' ∧
      st'.data = [65, 66, 67]) := by
  have h1 := claim_C5_accumulator_fidelity.1 [[1, 2], [], [3]]
  have h2 := claim_C5_accumulator_fidelity.2 [[65, 66], [67]] (by decide) (by decide)
  refine ⟨h1.1.trans (by decide), ?_⟩
  obtain ⟨st', hrun, hdata, -⟩ := h2
  exact ⟨st', hrun, hdata.trans (by decide)⟩
